import Mathlib

/-!
# Verification of the ESP32 precision reciprocal counter / pulse generator

Shallow embedding of `src/ESP32_PrecisionReciprocalCounter_Generator.ino`
(the pulse-generator variant; `src/unnamed/part_000` is a near-identical copy
of the same logic) and proofs about it.

Modelling conventions:
* Machine integers (`int`, `uint32_t`, `int16_t`) are embedded as `ℕ`/`ℤ`;
  all quantities handled by the embedded code paths stay far below any
  overflow boundary, so no wrap-around modelling is required.
* The single-precision (`float`) arithmetic of the duty-cycle/tick path is
  embedded bit-exactly: `fl32` below performs IEEE-754 round-to-nearest-even
  to a 24-bit significand (overflow and subnormals cannot occur at the
  magnitudes involved, so they are not modelled).  This matters because the
  code truncates the float results to integer tick counts, where sub-ulp
  rounding becomes an observable off-by-one.
* The real-valued frequency estimate (`float(n_sig)/float(n_ref)*reference`)
  is idealized to exact rational arithmetic; the special IEEE values that a
  zero denominator produces (`Inf`/`NaN`) are modelled by `FloatVal`,
  because the publish decision `if (frequency)` depends on them.
* `int(log10(f)+1)` (C truncation toward zero of the base-10 logarithm) is
  embedded with `Int.log`/`Int.clog`, which are exactly `⌊log10⌋`/`⌈log10⌉`
  on positive rationals.
-/

set_option maxRecDepth 100000

namespace ESP32PRC

/-- `#define PCNT_H_LIM_VAL 20000` — the counter overflow (high-limit) threshold. -/
def PCNT_H_LIM_VAL : ℕ := 20000

/-- `float reference = 10001305.4;` — the externally calibrated reference
frequency (exact decimal value of the source literal). -/
def reference : ℚ := 100013054 / 10

/-- Column 1 (`halfPeriodTicks`, called `t_dur` when read) of the 348-row
calibration table `float params[348][4]`, in source order.  The claims only
inspect this column (and the table size), so only it is embedded; all its
entries are small integers, hence exactly representable as `float`. -/
def params_dur : List ℕ := [
  32393, 32684, 28433, 32684, 32684, 19707, 30307, 24513, 21825, 19707, 27495, 24513, 24513,
  32684, 16322, 19420, 13138, 30307, 24498, 24513, 13677, 8894, 31525, 17639, 19707, 6569,
  23898, 24513, 30307, 24513, 19707, 32684, 7561, 8161, 22795, 9710, 19913, 6569, 24483,
  30307, 22795, 12249, 31525, 24513, 19913, 7768, 32684, 4447, 23588, 23898, 30307, 17009,
  16322, 19707, 19373, 30307, 4931, 23898, 20484, 11794, 22795, 30307, 28433, 24513, 8166,
  19707, 31303, 32684, 28843, 30034, 11349, 3152, 10603, 8693, 2708, 4855, 2276, 16823, 2957,
  17639, 18826, 24483, 13138, 30307, 26441, 4078, 27476, 21742, 23898, 2017, 24771, 24513,
  31725, 17009, 31084, 3884, 30307, 30307, 2876, 12424, 26670, 10871, 9413, 2039, 30079, 1942,
  6569, 30307, 24848, 20836, 9413, 1438, 16463, 6212, 19707, 26670, 25810, 20836, 30307,
  16809, 10391, 18521, 15446, 17546, 1531, 971, 13939, 7327, 18607, 30307, 22225, 21742, 1811,
  20836, 4297, 26670, 11206, 719, 6862, 18521, 10391, 3106, 14037, 13795, 13561, 22225, 5962,
  12905, 31750, 20836, 30773, 30307, 19903, 29416, 1567, 28575, 11269, 18521, 27401, 7723,
  17780, 17546, 10391, 7327, 10128, 633, 16463, 16262, 307, 15875, 9413, 23259, 6569, 22730,
  22475, 22225, 21981, 21742, 21508, 3869, 4679, 20836, 20621, 20411, 2377, 13335, 18184,
  16669, 30773, 28575, 8890, 25003, 23532, 22225, 21055, 241, 19050, 18184, 17394, 16669,
  16002, 15387, 14817, 14288, 13795, 4445, 12905, 12502, 449, 11766, 3810, 11113, 3604, 10528,
  10258, 10001, 9757, 9525, 9304, 9092, 8890, 8697, 8512, 8334, 8164, 8001, 212, 1099, 7548,
  7408, 7274, 7144, 638, 2299, 6781, 6668, 6558, 6452, 254, 6251, 6155, 6061, 5971, 5883,
  5798, 1905, 5635, 5556, 5480, 1802, 5334, 5264, 5195, 5129, 5064, 5001, 4939, 4879, 4820,
  4763, 4706, 4652, 418, 4546, 899, 4445, 4396, 4348, 18, 4256, 4211, 4167, 4124, 4082, 4041,
  4001, 3637, 3334, 181, 2858, 2667, 2500, 2353, 2223, 78, 2000, 635, 606, 1739, 1667, 1600,
  57, 1482, 1429, 1379, 1334, 1290, 1250, 1212, 11, 1143, 101, 1081, 39, 38, 1000, 976, 310,
  303, 889, 870, 851, 800, 769, 755, 741, 702, 138, 678, 667, 656, 645, 635, 625, 606, 597,
  580, 548, 19, 500, 494, 488, 482, 155, 460, 435, 10, 421, 404, 400, 200, 100, 80, 50, 40,
  20, 10, 8]

/-- `float t_dur = params[encoderValue][1];` — the half-period tick count of
the selected table row (`0` as out-of-range default; the encoder index is
proved to stay in range, see C9). -/
def t_dur (i : ℕ) : ℕ := params_dur.getD i 0

/-! ## Duty-cycle decision logic

`rotary_onButtonClick` (lines 532-578) and the encoder-changed branch of
`loop` (lines 809-847).  `set_duty` is the `RTC_DATA_ATTR int set_duty = 50`
stored requested duty; `duty` the effective duty used for that
reconfiguration.  All comparisons are between `float`s holding small exact
integers, so they are embedded as exact integer comparisons. -/

/-- From `rotary_onButtonClick`:
```
if (t_dur < 18000 && t_dur > 40){
  if (set_duty < 90){ set_duty += 10; } else { set_duty = 10; }
  duty = set_duty;
} else { duty = 50; }
```
Result: `(new set_duty, effective duty)`. -/
def rotary_onButtonClick (d : ℕ) (sd : ℤ) : ℤ × ℤ :=
  if d < 18000 ∧ 40 < d then
    (if sd < 90 then sd + 10 else 10, if sd < 90 then sd + 10 else 10)
  else (sd, 50)

/-- From the encoder-changed branch of `loop`:
```
if (t_dur > 18000 || t_dur < 40){ duty = 50; } else { duty = set_duty; }
```
(note the boundary treatment differs from `rotary_onButtonClick`). -/
def loop_duty (d : ℕ) (sd : ℤ) : ℤ := if 18000 < d ∨ d < 40 then 50 else sd

/-- The stored `set_duty` after a sequence of button presses, each made while
the rotary encoder rests on the given table index. -/
def pressSeq (l : List ℕ) (sd : ℤ) : ℤ :=
  l.foldl (fun s i => (rotary_onButtonClick (t_dur i) s).1) sd

/-- The duty values `{10, 20, ..., 90}` that the spec's `DutyState` allows. -/
def dutyRange (sd : ℤ) : Prop := 10 ≤ sd ∧ sd ≤ 90 ∧ sd % 10 = 0

instance (sd : ℤ) : Decidable (dutyRange sd) := by unfold dutyRange; infer_instance

/-! ## Dual counter accumulator (overflow tallies)

`init_counter` configures each hardware counter with
`counter_h_lim = PCNT_H_LIM_VAL`, upon which the ESP32 PCNT unit resets the
count to 0 and raises `PCNT_EVT_H_LIM`; `pcnt_intr_handler` then increments
the corresponding `noverflow` tally by one.  `isr` starts each gate window
from cleared counters and zeroed tallies. -/

/-- State of one gated counter: the hardware count and its software
overflow tally. -/
structure CounterState where
  count : ℕ
  noverflow : ℕ
deriving DecidableEq

/-- One counted input pulse: the hardware counter increments; on reaching
`PCNT_H_LIM_VAL` it resets to 0 and `pcnt_intr_handler` increments
`noverflow`. -/
def pulse (s : CounterState) : CounterState :=
  if s.count + 1 = PCNT_H_LIM_VAL then { count := 0, noverflow := s.noverflow + 1 }
  else { count := s.count + 1, noverflow := s.noverflow }

/-- The counter state after `n` pulses of one gate window (counters cleared
and tallies zeroed by `isr` at the start of the window). -/
def run : ℕ → CounterState
  | 0 => { count := 0, noverflow := 0 }
  | n + 1 => pulse (run n)

/-- `noverflow*PCNT_H_LIM_VAL + count` — the total as computed in `loop`. -/
def total (s : CounterState) : ℕ := s.noverflow * PCNT_H_LIM_VAL + s.count

/-! ## Rotary encoder index bounds

Modelled from the spec: the `AiEsp32RotaryEncoder` library is an external
collaborator (not part of this repository).  `setup` configures it with
`rotaryEncoder.setBoundaries(0, 347, circleValues)` where
`bool circleValues = false;`, which per the spec clamps the index to the
non-cyclic range `[0, 347]`: movements beyond either bound are clamped to
that bound, never wrapped. -/

/-- Modelled from the spec: one rotary movement of (signed) magnitude
`delta` starting from index `c`, clamped non-cyclically to `[0, 347]`. -/
def encoderMove (c delta : ℤ) : ℤ := max 0 (min 347 (c + delta))

/-! ## Bit-exact binary32 arithmetic

The duty-cycle tick computation
`float t_on = (t_dur/100)*2*duty; float t_off = 2*t_dur - int(t_on);`
is performed in single precision and then truncated to `int`, so sub-ulp
rounding is observable.  `fl32` is IEEE-754 binary32 rounding
(round-to-nearest, ties-to-even, 24-bit significand) of an exact rational;
overflow and subnormals cannot occur at the magnitudes reached here and are
not modelled. -/

/-- Round to the nearest integer, ties to even. -/
def rne (q : ℚ) : ℤ :=
  if q - ⌊q⌋ < 1/2 then ⌊q⌋
  else if 1/2 < q - ⌊q⌋ then ⌊q⌋ + 1
  else if 2 ∣ ⌊q⌋ then ⌊q⌋ else ⌊q⌋ + 1

/-- IEEE-754 binary32 rounding of an exact rational value: the significand is
rounded to 24 bits at the value's binary exponent. -/
def fl32 (q : ℚ) : ℚ :=
  if q = 0 then 0
  else if 0 < q then (rne (q * 2 ^ ((23 : ℤ) - Int.log 2 q)) : ℚ) * 2 ^ (Int.log 2 q - 23)
  else -((rne (-q * 2 ^ ((23 : ℤ) - Int.log 2 (-q))) : ℚ) * 2 ^ (Int.log 2 (-q) - 23))

/-- C cast `int(...)` of a `float`: truncation toward zero. -/
def cInt (q : ℚ) : ℤ := if 0 ≤ q then ⌊q⌋ else -⌊-q⌋

/-- `float t_on = (t_dur/100)*2*duty;` — single-precision left-to-right
evaluation (`t_dur` is an exactly representable table integer). -/
def t_on (d : ℕ) (duty : ℤ) : ℚ := fl32 (fl32 (fl32 ((d : ℚ) / 100) * 2) * duty)

/-- `freq_gen_bit_data[i].duration0 = int(t_on);` — the on-ticks handed to
the RMT waveform driver. -/
def duration0 (d : ℕ) (duty : ℤ) : ℤ := cInt (t_on d duty)

/-- `float t_off = 2*t_dur - int(t_on);` — `2*t_dur` and the int-to-float
conversion are exact at these magnitudes; the subtraction is a rounded
single-precision operation. -/
def t_off (d : ℕ) (duty : ℤ) : ℚ := fl32 (fl32 (2 * (d : ℚ)) - (duration0 d duty : ℚ))

/-- `freq_gen_bit_data[i].duration1 = int(t_off);` — the off-ticks handed to
the RMT waveform driver. -/
def duration1 (d : ℕ) (duty : ℤ) : ℤ := cInt (t_off d duty)

/-! ## Frequency estimator (`loop`, lines 782-798)

```
int n_ref = ((reading.noverflow0*PCNT_H_LIM_VAL)+reading.count0);
int n_sig = ((reading.noverflow1*PCNT_H_LIM_VAL)+reading.count1);
float frequency = float(n_sig)/float(n_ref)*reference;
...
if (frequency){ create_display_string(...); Serial.printf(...); lcd.print(...); }
```
The finite real arithmetic is idealized to exact rationals; the IEEE special
values produced by a zero denominator are modelled by `FloatVal` because the
publish guard `if (frequency)` observes them (`Inf` and `NaN` both compare
unequal to zero in C, hence truthy). -/

/-- The snapshot structure `reading_t` filled by `isr`. -/
structure Reading where
  count0 : ℕ
  noverflow0 : ℕ
  count1 : ℕ
  noverflow1 : ℕ
deriving DecidableEq

/-- `int n_ref = ((reading.noverflow0*PCNT_H_LIM_VAL)+reading.count0);` -/
def n_ref (r : Reading) : ℕ := r.noverflow0 * PCNT_H_LIM_VAL + r.count0

/-- `int n_sig = ((reading.noverflow1*PCNT_H_LIM_VAL)+reading.count1);` -/
def n_sig (r : Reading) : ℕ := r.noverflow1 * PCNT_H_LIM_VAL + r.count1

/-- Classification of the computed `float frequency`: a finite value
(idealized to its exact rational), positive infinity, or NaN.  All operands
occurring here are nonnegative. -/
inductive FloatVal where
  | finite (q : ℚ)
  | posInf
  | nan
deriving DecidableEq

/-- IEEE-754 division for the nonnegative operands of the frequency
computation: a zero denominator yields `+Inf` (nonzero numerator) or `NaN`
(zero numerator); otherwise the exact quotient (idealized, unrounded). -/
def fdiv (a b : ℚ) : FloatVal :=
  if b = 0 then (if a = 0 then FloatVal.nan else FloatVal.posInf) else FloatVal.finite (a / b)

/-- IEEE-754 multiplication of the division result by the positive constant
`reference` (idealized for finite values; `Inf * c = Inf` and `NaN * c = NaN`
for `c > 0`). -/
def fmulPos (x : FloatVal) (c : ℚ) : FloatVal :=
  match x with
  | FloatVal.finite q => FloatVal.finite (q * c)
  | FloatVal.posInf => FloatVal.posInf
  | FloatVal.nan => FloatVal.nan

/-- `float frequency = float(n_sig)/float(n_ref)*reference;` -/
def loopFrequency (r : Reading) : FloatVal := fmulPos (fdiv (n_sig r) (n_ref r)) reference

/-- C truthiness of a `float` (`if (frequency)`): comparison `!= 0`, which is
true for `Inf` and also for `NaN`. -/
def truthy : FloatVal → Bool
  | FloatVal.finite q => q != 0
  | FloatVal.posInf => true
  | FloatVal.nan => true

/-- Whether the cycle's frequency is published (display update and serial
log line are both inside `if (frequency){...}`). -/
def publishes (r : Reading) : Bool := truthy (loopFrequency r)

/-- The exact rational value of the frequency estimate (meaningful when
`n_ref ≠ 0`). -/
def frequencyQ (r : Reading) : ℚ := (n_sig r : ℚ) / (n_ref r : ℚ) * reference

/-! ## Display precision

`create_display_string` (lines 508-526) and `loop` (lines 787-788):
```
int precision = 8-int(log10(f)+1);
precision = precision<0?0:precision;
```
with the LCD path (`create_display_string`) first rescaling `f` by 1e6/1e3
for the M/K unit suffix.  For `f > 0`, C's `int(...)` truncation toward zero
of `log10(f)+1` equals `⌊log10 f⌋ + 1 = Int.log 10 f + 1` when
`log10(f)+1 ≥ 0` (i.e. `f ≥ 1/10`) and `⌈log10 f⌉ + 1 = Int.clog 10 f + 1`
otherwise. -/

/-- `int(log10(f)+1)` for positive `f` (C truncation toward zero). -/
def truncLog10Succ (f : ℚ) : ℤ :=
  if 1/10 ≤ f then Int.log 10 f + 1 else Int.clog 10 f + 1

/-- The unit rescaling at the top of `create_display_string`:
`if (f>1000000){ f /=1000000; } else if (f > 1000){ f/=1000; }`. -/
def scale_f (f : ℚ) : ℚ :=
  if 1000000 < f then f / 1000000 else if 1000 < f then f / 1000 else f

/-- Fractional digits printed by `create_display_string` (LCD): the
precision formula applied to the unit-scaled value. -/
def display_precision (f : ℚ) : ℤ := max 0 (8 - truncLog10Succ (scale_f f))

/-- Fractional digits printed by the serial log in `loop`: the precision
formula applied to the raw frequency. -/
def loop_precision (f : ℚ) : ℤ := max 0 (8 - truncLog10Succ f)

/-! ## Theorems -/

/-- Helper: simp-friendly unfolding of a feasible button press. -/
theorem rotary_onButtonClick_feasible {d : ℕ} (sd : ℤ) (h1 : 40 < d) (h2 : d < 18000) :
    rotary_onButtonClick d sd =
      (if sd < 90 then sd + 10 else 10, if sd < 90 then sd + 10 else 10) := by
  unfold rotary_onButtonClick
  rw [if_pos ⟨h2, h1⟩]

/-- Helper: an infeasible button press leaves `set_duty` unchanged and uses
duty 50. -/
theorem rotary_onButtonClick_infeasible {d : ℕ} (sd : ℤ) (h : ¬(40 < d ∧ d < 18000)) :
    rotary_onButtonClick d sd = (sd, 50) := by
  unfold rotary_onButtonClick
  rw [if_neg (by tauto)]

/-- Helper: any button press preserves membership in `{10,...,90}`. -/
theorem dutyRange_step (d : ℕ) (sd : ℤ) (h : dutyRange sd) :
    dutyRange (rotary_onButtonClick d sd).1 := by
  obtain ⟨h1, h2, h3⟩ := h
  unfold rotary_onButtonClick
  split
  · simp only
    split <;> (constructor <;> omega)
  · exact ⟨h1, h2, h3⟩

/-- C7: starting from the default `set_duty = 50`, a button press at a
feasible index (`40 < d < 18000`) advances the stored duty by exactly 10,
wrapping from 90 back to 10, and after any sequence of presses (feasible or
not) the stored duty stays in `{10, 20, ..., 90}`. -/
theorem c7_button_cycle :
    (∀ (d : ℕ) (sd : ℤ), 40 < d → d < 18000 → dutyRange sd →
      (rotary_onButtonClick d sd).1 = (if sd = 90 then 10 else sd + 10) ∧
      dutyRange (rotary_onButtonClick d sd).1) ∧
    (∀ l : List ℕ, dutyRange (pressSeq l 50)) := by
  constructor
  · intro d sd h1 h2 hsd
    refine ⟨?_, dutyRange_step d sd hsd⟩
    rw [rotary_onButtonClick_feasible sd h1 h2]
    obtain ⟨ha, hb, hc⟩ := hsd
    by_cases h90 : sd = 90
    · subst h90; norm_num
    · rw [if_neg h90, if_pos (by omega)]
  · intro l
    have key : ∀ (l : List ℕ) (sd : ℤ), dutyRange sd → dutyRange (pressSeq l sd) := by
      intro l
      induction l with
      | nil => intro sd h; exact h
      | cons i t ih =>
        intro sd h
        unfold pressSeq at *
        simp only [List.foldl_cons]
        exact ih _ (dutyRange_step (t_dur i) sd h)
    exact key l 50 ⟨by norm_num, by norm_num, by norm_num⟩

/-- C7 witness: a concrete feasible press (index 185, `d = 13335`) from the
default duty 50 advances to 60, and duty stays in range after presses. -/
theorem c7_button_cycle_witness :
    (rotary_onButtonClick 13335 50).1 = 60 ∧ dutyRange (rotary_onButtonClick 13335 50).1 := by
  have h := c7_button_cycle.1 13335 50 (by norm_num) (by norm_num)
    ⟨by norm_num, by norm_num, by norm_num⟩
  refine ⟨?_, h.2⟩
  rw [h.1]
  norm_num

/-- C10: a button press made while the selected entry's `halfPeriodTicks`
lies outside the open interval `(40, 18000)` leaves the stored `set_duty`
unchanged and applies the default 50% duty. -/
theorem c10_infeasible_press_frame (i : ℕ) (sd : ℤ)
    (h : ¬(40 < t_dur i ∧ t_dur i < 18000)) :
    rotary_onButtonClick (t_dur i) sd = (sd, 50) :=
  rotary_onButtonClick_infeasible sd h

/-- C10 witness: at index 0 (`d = 32393`, infeasible) a press with stored
duty 70 changes nothing and uses duty 50. -/
theorem c10_infeasible_press_frame_witness :
    rotary_onButtonClick (t_dur 0) 70 = (70, 50) :=
  c10_infeasible_press_frame 0 70 (by decide)

/-- C8: within one gate window every counter total satisfies
`total = noverflow * PCNT_H_LIM_VAL + count` with `0 ≤ count < PCNT_H_LIM_VAL`
(`noverflow` is incremented exactly once each time the count reaches the
limit), and two overflow events plus a final count of 150 give total 40150. -/
theorem c8_overflow_invariant :
    (∀ n : ℕ, total (run n) = n ∧ (run n).count = n % PCNT_H_LIM_VAL ∧
      (run n).noverflow = n / PCNT_H_LIM_VAL ∧ (run n).count < PCNT_H_LIM_VAL) ∧
    ((run 40150).noverflow = 2 ∧ (run 40150).count = 150 ∧
      total { count := 150, noverflow := 2 } = 40150) := by
  have key : ∀ n : ℕ, total (run n) = n ∧ (run n).count = n % PCNT_H_LIM_VAL ∧
      (run n).noverflow = n / PCNT_H_LIM_VAL ∧ (run n).count < PCNT_H_LIM_VAL := by
    intro n
    induction n with
    | zero => exact ⟨rfl, rfl, rfl, by decide⟩
    | succ n ih =>
      obtain ⟨ih1, ih2, ih3, ih4⟩ := ih
      have hrun : run (n + 1) = pulse (run n) := rfl
      unfold total at *
      unfold pulse at hrun
      unfold PCNT_H_LIM_VAL at *
      split at hrun <;> rw [hrun] <;> simp only at * <;> refine ⟨?_, ?_, ?_, ?_⟩ <;> omega
  refine ⟨key, ?_, ?_, ?_⟩
  · rw [(key 40150).2.2.1]; unfold PCNT_H_LIM_VAL; norm_num
  · rw [(key 40150).2.1]; unfold PCNT_H_LIM_VAL; norm_num
  · unfold total PCNT_H_LIM_VAL; norm_num

/-- C9: the selected index stays in `[0, 347]` (348-entry table): clamped
moves never leave the range, moving down at 0 or up at 347 does not wrap,
and every resulting index is a valid `params` row index. -/
theorem c9_index_bounds (c delta : ℤ) (h0 : 0 ≤ c) (h1 : c ≤ 347) :
    params_dur.length = 348 ∧
    0 ≤ encoderMove c delta ∧ encoderMove c delta ≤ 347 ∧
    (encoderMove c delta).toNat < params_dur.length ∧
    encoderMove 0 (-1) = 0 ∧ encoderMove 347 1 = 347 := by
  have hlen : params_dur.length = 348 := by decide
  unfold encoderMove
  refine ⟨hlen, ?_, ?_, ?_, ?_, ?_⟩
  · exact le_max_left 0 _
  · have : min 347 (c + delta) ≤ 347 := min_le_left _ _
    omega
  · rw [hlen]
    have : min 347 (c + delta) ≤ 347 := min_le_left _ _
    omega
  · norm_num
  · norm_num

/-- C9 witness: from the default index 185, a move of −200 clamps to 0, in
range, and indexes the table legally. -/
theorem c9_index_bounds_witness :
    params_dur.length = 348 ∧
    0 ≤ encoderMove 185 (-200) ∧ encoderMove 185 (-200) ≤ 347 ∧
    (encoderMove 185 (-200)).toNat < params_dur.length ∧
    encoderMove 0 (-1) = 0 ∧ encoderMove 347 1 = 347 :=
  c9_index_bounds 185 (-200) (by norm_num) (by norm_num)

/-- C3 counterexample: the table entry at index 344 has
`halfPeriodTicks = 40`, outside the open interval `(40, 18000)`; the claim
demands effective duty 50 on both paths, but the rotary-path (`loop`)
computation honours the stored duty 60 there. -/
theorem c3_counterexample :
    t_dur 344 = 40 ∧ ¬(40 < t_dur 344 ∧ t_dur 344 < 18000) ∧
    loop_duty (t_dur 344) 60 = 60 ∧ (60 : ℤ) ≠ 50 := by
  refine ⟨by decide, by decide, ?_, by decide⟩
  have h : t_dur 344 = 40 := by decide
  rw [h]
  unfold loop_duty
  norm_num

/-- C3 amended: away from the boundary values `d = 40` and `d = 18000` the
two reconfiguration paths agree (`set_duty` honoured exactly inside
`(40, 18000)`, 50% forced outside); the table has no entry with
`d = 18000` and exactly one with `d = 40` (index 344), and on that entry the
paths disagree: `loop` honours the stored duty while a button press forces
50%. -/
theorem c3_amended (d : ℕ) (sd : ℤ) (h40 : d ≠ 40) (h18000 : d ≠ 18000) :
    ((40 < d ∧ d < 18000) →
      loop_duty d sd = sd ∧ (rotary_onButtonClick d sd).2 = (rotary_onButtonClick d sd).1) ∧
    (¬(40 < d ∧ d < 18000) →
      loop_duty d sd = 50 ∧ (rotary_onButtonClick d sd).2 = 50) ∧
    (params_dur.count 40 = 1 ∧ params_dur.count 18000 = 0 ∧ t_dur 344 = 40) ∧
    (∀ sd' : ℤ, loop_duty 40 sd' = sd' ∧ (rotary_onButtonClick 40 sd').2 = 50) := by
  refine ⟨?_, ?_, ⟨by decide, by decide, by decide⟩, ?_⟩
  · intro ⟨ha, hb⟩
    constructor
    · unfold loop_duty; rw [if_neg (by omega)]
    · rw [rotary_onButtonClick_feasible sd ha hb]
  · intro h
    constructor
    · unfold loop_duty; rw [if_pos (by omega)]
    · rw [rotary_onButtonClick_infeasible sd h]
  · intro sd'
    constructor
    · unfold loop_duty; norm_num
    · rw [rotary_onButtonClick_infeasible sd' (by norm_num)]

/-- C3 amended witness: at `d = 13335` (feasible, index 185) and at
`d = 32393` (infeasible, index 0) the two paths agree for stored duty 70. -/
theorem c3_amended_witness :
    (loop_duty 13335 70 = 70 ∧
      (rotary_onButtonClick 13335 70).2 = (rotary_onButtonClick 13335 70).1) ∧
    (loop_duty 32393 70 = 50 ∧ (rotary_onButtonClick 32393 70).2 = 50) :=
  ⟨(c3_amended 13335 70 (by norm_num) (by norm_num)).1 ⟨by norm_num, by norm_num⟩,
   ((c3_amended 32393 70 (by norm_num) (by norm_num)).2.1 (by norm_num))⟩

/-! ### Helper lemmas about `rne`, `fl32`, `cInt` -/

/-- `rne` deviates from its argument by at most 1/2. -/
theorem rne_bounds (q : ℚ) : q - 1/2 ≤ (rne q : ℚ) ∧ (rne q : ℚ) ≤ q + 1/2 := by
  have h1 : ((⌊q⌋ : ℤ) : ℚ) ≤ q := Int.floor_le q
  have h2 : q < ⌊q⌋ + 1 := Int.lt_floor_add_one q
  unfold rne
  split_ifs with ha hb hc <;> constructor <;> push_cast <;> linarith

/-- Evaluation: if `m ≤ q < m + 1/2` then `rne q = m`. -/
theorem rne_eq_lo {q : ℚ} {m : ℤ} (h1 : (m : ℚ) ≤ q) (h2 : q < (m : ℚ) + 1/2) : rne q = m := by
  have hf : ⌊q⌋ = m := Int.floor_eq_iff.mpr ⟨h1, by push_cast; linarith⟩
  unfold rne
  rw [hf, if_pos (by push_cast; linarith)]

/-- Evaluation: if `m - 1/2 < q < m` then `rne q = m`. -/
theorem rne_eq_hi {q : ℚ} {m : ℤ} (h1 : (m : ℚ) - 1/2 < q) (h2 : q < (m : ℚ)) : rne q = m := by
  have hf : ⌊q⌋ = m - 1 := Int.floor_eq_iff.mpr ⟨by push_cast; linarith, by push_cast; linarith⟩
  unfold rne
  rw [hf, if_neg (by push_cast; linarith), if_pos (by push_cast; linarith)]
  omega

/-- Evaluation: an exact tie `q = m + 1/2` with `m` even rounds to `m`. -/
theorem rne_eq_tie {q : ℚ} {m : ℤ} (h1 : q = (m : ℚ) + 1/2) (h2 : 2 ∣ m) : rne q = m := by
  have hf : ⌊q⌋ = m := Int.floor_eq_iff.mpr ⟨by push_cast; linarith, by push_cast; linarith⟩
  unfold rne
  rw [hf, if_neg (by push_cast; linarith), if_neg (by push_cast; linarith), if_pos h2]

/-- `rne` of an integer is that integer. -/
theorem rne_intCast (z : ℤ) : rne (z : ℚ) = z :=
  rne_eq_lo (le_refl _) (by linarith)

/-- Uniqueness characterization of `Int.log` from two-sided `zpow` bounds. -/
theorem int_log_eq {b : ℕ} (hb : 1 < b) {q : ℚ} {e : ℤ} (h0 : 0 < q)
    (h1 : ((b : ℕ) : ℚ) ^ e ≤ q) (h2 : q < ((b : ℕ) : ℚ) ^ (e + 1)) : Int.log b q = e := by
  have lo := (Int.zpow_le_iff_le_log hb h0).mp h1
  have hi := (Int.lt_zpow_iff_log_lt hb h0).mp h2
  omega

/-- Uniqueness characterization of `Int.clog` from two-sided `zpow` bounds. -/
theorem int_clog_eq {b : ℕ} (hb : 1 < b) {q : ℚ} {c : ℤ} (h0 : 0 < q)
    (h1 : ((b : ℕ) : ℚ) ^ (c - 1) < q) (h2 : q ≤ ((b : ℕ) : ℚ) ^ c) : Int.clog b q = c := by
  have lo := (Int.le_zpow_iff_clog_le hb h0).mp h2
  have hi := (Int.zpow_lt_iff_lt_clog hb h0).mp h1
  omega

/-- Unfolding of `fl32` on positive arguments. -/
theorem fl32_of_pos {q : ℚ} (h0 : 0 < q) :
    fl32 q = (rne (q * 2 ^ ((23 : ℤ) - Int.log 2 q)) : ℚ) * 2 ^ (Int.log 2 q - 23) := by
  unfold fl32
  rw [if_neg (ne_of_gt h0), if_pos h0]

/-- Evaluation of `fl32` from an explicit exponent `e` and significand `m`. -/
theorem fl32_eval {q : ℚ} {e m : ℤ} (h0 : 0 < q) (h1 : (2 : ℚ) ^ e ≤ q)
    (h2 : q < (2 : ℚ) ^ (e + 1)) (hm : rne (q * 2 ^ ((23 : ℤ) - e)) = m) :
    fl32 q = (m : ℚ) * 2 ^ (e - 23) := by
  have hlog : Int.log 2 q = e :=
    int_log_eq one_lt_two h0 (by exact_mod_cast h1) (by exact_mod_cast h2)
  rw [fl32_of_pos h0, hlog, hm]

/-- The relative error of `fl32` is at most `2⁻²⁴` on positive arguments. -/
theorem fl32_bounds {q : ℚ} (h0 : 0 < q) :
    q - q / 2 ^ 24 ≤ fl32 q ∧ fl32 q ≤ q + q / 2 ^ 24 := by
  set e := Int.log 2 q with he
  have h1 : ((2 : ℕ) : ℚ) ^ e ≤ q := Int.zpow_log_le_self one_lt_two h0
  have h1' : (2 : ℚ) ^ e ≤ q := by exact_mod_cast h1
  obtain ⟨hr1, hr2⟩ := rne_bounds (q * 2 ^ ((23 : ℤ) - e))
  have hrw : fl32 q = (rne (q * 2 ^ ((23 : ℤ) - e)) : ℚ) * 2 ^ (e - 23) := fl32_of_pos h0
  have hpos : (0 : ℚ) < 2 ^ (e - 23) := by positivity
  have hkey : q * 2 ^ ((23 : ℤ) - e) * 2 ^ (e - 23) = q := by
    rw [mul_assoc, ← zpow_add₀ (by norm_num : (2 : ℚ) ≠ 0)]
    norm_num
  have h2e : (1 / 2 : ℚ) * 2 ^ (e - 23) ≤ q / 2 ^ 24 := by
    rw [le_div_iff (by norm_num : (0 : ℚ) < 2 ^ 24)]
    have hLHS : (1 / 2 : ℚ) * 2 ^ (e - 23) * 2 ^ 24 = 2 ^ e := by
      rw [show ((2 : ℚ) ^ (24 : ℕ)) = (2 : ℚ) ^ ((24 : ℤ)) from (zpow_natCast 2 24).symm,
        mul_assoc, ← zpow_add₀ (by norm_num : (2 : ℚ) ≠ 0),
        show (1 / 2 : ℚ) = (2 : ℚ) ^ (-(1 : ℤ)) from by norm_num,
        ← zpow_add₀ (by norm_num : (2 : ℚ) ≠ 0)]
      congr 1
      ring
    rw [hLHS]
    exact h1'
  constructor
  · have hmul := mul_le_mul_of_nonneg_right hr1 (le_of_lt hpos)
    rw [sub_mul, hkey] at hmul
    rw [hrw]
    linarith
  · have hmul := mul_le_mul_of_nonneg_right hr2 (le_of_lt hpos)
    rw [add_mul, hkey] at hmul
    rw [hrw]
    linarith

/-- `fl32` preserves strict positivity. -/
theorem fl32_pos {q : ℚ} (h0 : 0 < q) : 0 < fl32 q := by
  have h := (fl32_bounds h0).1
  nlinarith

/-- `fl32` is exact on nonnegative integers below `2²⁴ = 16777216`. -/
theorem fl32_intCast (z : ℤ) (hz0 : 0 ≤ z) (hz : z < 16777216) : fl32 (z : ℚ) = z := by
  rcases eq_or_lt_of_le hz0 with hzero | hpos
  · rw [← hzero]
    unfold fl32
    norm_num
  · have h0 : (0 : ℚ) < (z : ℚ) := by exact_mod_cast hpos
    set e := Int.log 2 ((z : ℚ)) with he
    have h1 : ((2 : ℕ) : ℚ) ^ e ≤ (z : ℚ) := Int.zpow_log_le_self one_lt_two h0
    have h2 : ((z : ℚ)) < ((2 : ℕ) : ℚ) ^ (e + 1) := Int.lt_zpow_succ_log_self one_lt_two _
    have h1z : (1 : ℚ) ≤ (z : ℚ) := by
      have hz1 : (1 : ℤ) ≤ z := hpos
      exact_mod_cast hz1
    have he0 : 0 ≤ e := by
      rw [he]
      refine (Int.zpow_le_iff_le_log one_lt_two h0).mp ?_
      rw [show (((2 : ℕ) : ℚ)) ^ ((0 : ℤ)) = 1 from by norm_num]
      exact h1z
    have he23 : e ≤ 23 := by
      have h24 : (((2 : ℕ) : ℚ)) ^ ((24 : ℤ)) = 16777216 := by push_cast; norm_num
      have hzq : ((z : ℚ)) < 16777216 := by exact_mod_cast hz
      have := (Int.lt_zpow_iff_log_lt one_lt_two h0).mp (by rw [h24]; exact hzq)
      omega
    set k : ℕ := (23 - e).toNat with hk
    have hk23 : (k : ℤ) = 23 - e := Int.toNat_of_nonneg (by omega)
    have hxint : (z : ℚ) * 2 ^ ((23 : ℤ) - e) = ((z * 2 ^ k : ℤ) : ℚ) := by
      rw [← hk23, zpow_natCast]
      push_cast
      ring
    have hrne : rne ((z : ℚ) * 2 ^ ((23 : ℤ) - e)) = z * 2 ^ k := by
      rw [hxint]; exact rne_intCast _
    rw [fl32_of_pos h0, ← he, hrne]
    push_cast
    rw [mul_assoc, ← zpow_natCast (2 : ℚ) k, hk23, ← zpow_add₀ (by norm_num : (2 : ℚ) ≠ 0)]
    norm_num

/-- `cInt` of an integer is that integer. -/
theorem cInt_intCast (z : ℤ) : cInt (z : ℚ) = z := by
  unfold cInt
  split_ifs with h
  · exact Int.floor_intCast z
  · rw [show (-(z : ℚ)) = ((-z : ℤ) : ℚ) by push_cast; ring, Int.floor_intCast]
    ring

/-- `cInt` on nonnegative arguments is the floor. -/
theorem cInt_of_nonneg {q : ℚ} (h : 0 ≤ q) : cInt q = ⌊q⌋ := if_pos h

/-- Two-sided relative error bound for the whole `t_on` chain: the computed
value lies within relative `2⁻²²` of the exact `2·d·p/100 = d·p/50`. -/
theorem t_on_bounds {d : ℕ} {p : ℤ} (hd1 : 1 ≤ d) (hp1 : 1 ≤ p) :
    ((d : ℚ) * p / 50) * (1 - 1/2^22) ≤ t_on d p ∧
      t_on d p ≤ ((d : ℚ) * p / 50) * (1 + 1/2^22) := by
  have hd0 : (0 : ℚ) < (d : ℚ) := by exact_mod_cast hd1
  have hp0 : (0 : ℚ) < (p : ℚ) := by exact_mod_cast hp1
  have hq1 : (0 : ℚ) < (d : ℚ) / 100 := by positivity
  obtain ⟨ha1, ha2⟩ := fl32_bounds hq1
  have hapos : 0 < fl32 ((d : ℚ) / 100) := fl32_pos hq1
  set a := fl32 ((d : ℚ) / 100) with hadef
  have hb0 : (0 : ℚ) < a * 2 := by positivity
  obtain ⟨hb1, hb2⟩ := fl32_bounds hb0
  have hbpos : 0 < fl32 (a * 2) := fl32_pos hb0
  set b := fl32 (a * 2) with hbdef
  have ht0 : (0 : ℚ) < b * (p : ℚ) := by positivity
  obtain ⟨ht1, ht2⟩ := fl32_bounds ht0
  have hrw : t_on d p = fl32 (b * (p : ℚ)) := rfl
  rw [hrw]
  constructor
  · calc ((d : ℚ) * p / 50) * (1 - 1/2^22)
        ≤ ((d : ℚ) * p / 50) * (1 - 1/2^24)^3 := by
          apply mul_le_mul_of_nonneg_left (by norm_num) (by positivity)
      _ = (((d : ℚ)/100 - ((d : ℚ)/100) / 2^24) * (2 * p)) * (1 - 1/2^24)^2 := by ring
      _ ≤ (a * (2 * p)) * (1 - 1/2^24)^2 := by
          apply mul_le_mul_of_nonneg_right (mul_le_mul_of_nonneg_right ha1 (by linarith))
          positivity
      _ = ((a * 2 - (a * 2) / 2^24) * p) * (1 - 1/2^24) := by ring
      _ ≤ (b * p) * (1 - 1/2^24) := by
          apply mul_le_mul_of_nonneg_right (mul_le_mul_of_nonneg_right hb1 (le_of_lt hp0))
          norm_num
      _ = b * p - (b * p) / 2^24 := by ring
      _ ≤ fl32 (b * ↑p) := ht1
  · calc fl32 (b * ↑p)
        ≤ b * p + (b * p) / 2^24 := ht2
      _ = (b * p) * (1 + 1/2^24) := by ring
      _ ≤ ((a * 2 + (a * 2) / 2^24) * p) * (1 + 1/2^24) := by
          apply mul_le_mul_of_nonneg_right (mul_le_mul_of_nonneg_right hb2 (le_of_lt hp0))
          norm_num
      _ = (a * (2 * p)) * (1 + 1/2^24)^2 := by ring
      _ ≤ (((d : ℚ)/100 + ((d : ℚ)/100) / 2^24) * (2 * p)) * (1 + 1/2^24)^2 := by
          apply mul_le_mul_of_nonneg_right (mul_le_mul_of_nonneg_right ha2 (by linarith))
          positivity
      _ = ((d : ℚ) * p / 50) * (1 + 1/2^24)^3 := by ring
      _ ≤ ((d : ℚ) * p / 50) * (1 + 1/2^22) := by
          apply mul_le_mul_of_nonneg_left (by norm_num) (by positivity)

/-- For any table-sized `d` and duty `p ∈ [1, 90]`, the on/off tick counts
always sum to the full period `2·d`. -/
theorem durations_sum {d : ℕ} {p : ℤ} (hd1 : 1 ≤ d) (hd2 : d ≤ 32767)
    (hp1 : 1 ≤ p) (hp2 : p ≤ 90) : duration0 d p + duration1 d p = 2 * d := by
  obtain ⟨hlo, hhi⟩ := t_on_bounds (d := d) (p := p) hd1 hp1
  have hd0 : (0 : ℚ) < (d : ℚ) := by exact_mod_cast hd1
  have hdq2 : ((d : ℚ)) ≤ 32767 := by exact_mod_cast hd2
  have hp0 : (0 : ℚ) < (p : ℚ) := by exact_mod_cast hp1
  have hpq2 : ((p : ℚ)) ≤ 90 := by exact_mod_cast hp2
  have ht0 : 0 < t_on d p := by nlinarith [mul_pos hd0 hp0]
  have htlt : t_on d p < 2 * (d : ℚ) := by
    nlinarith [mul_le_mul_of_nonneg_left hpq2 (le_of_lt hd0), mul_pos hd0 hp0]
  have hdur0 : duration0 d p = ⌊t_on d p⌋ := by
    unfold duration0
    exact cInt_of_nonneg (le_of_lt ht0)
  have hfl : (⌊t_on d p⌋ : ℚ) ≤ t_on d p := Int.floor_le _
  have hd0_lo : 0 ≤ duration0 d p := by
    rw [hdur0]
    exact Int.floor_nonneg.mpr (le_of_lt ht0)
  have hd0_hi : duration0 d p < 2 * (d : ℤ) := by
    rw [hdur0]
    have h1 : (⌊t_on d p⌋ : ℚ) < 2 * (d : ℚ) := lt_of_le_of_lt hfl htlt
    exact_mod_cast h1
  have h2d : fl32 (2 * (d : ℚ)) = 2 * (d : ℚ) := by
    have h := fl32_intCast (2 * (d : ℤ)) (by omega) (by omega)
    rw [show ((2 * (d : ℤ) : ℤ) : ℚ) = 2 * (d : ℚ) by push_cast; ring] at h
    exact h
  have hoff : t_off d p = ((2 * (d : ℤ) - duration0 d p : ℤ) : ℚ) := by
    unfold t_off
    rw [h2d, show 2 * (d : ℚ) - (duration0 d p : ℚ) =
      ((2 * (d : ℤ) - duration0 d p : ℤ) : ℚ) by push_cast; ring]
    exact fl32_intCast _ (by omega) (by omega)
  have hdur1 : duration1 d p = 2 * (d : ℤ) - duration0 d p := by
    unfold duration1
    rw [hoff, cInt_intCast]
  omega

/-! ### Concrete binary32 evaluations (entries used by the tests in the spec)

All significands and exponents below were cross-checked against an exact
IEEE-754 binary32 simulation of the source expressions. -/

/-- `fl32(4078/100) = 10690232·2⁻¹⁸ = 1336279/32768` (≈ 40.779999). -/
theorem fl32_c4a : fl32 ((4078 : ℚ) / 100) = 1336279 / 32768 := by
  have h : fl32 ((4078 : ℚ) / 100) = ((10690232 : ℤ) : ℚ) * 2 ^ ((5 : ℤ) - 23) :=
    fl32_eval (e := 5) (m := 10690232) (by norm_num) (by norm_num) (by norm_num)
      (rne_eq_lo (by norm_num) (by norm_num))
  rw [h]; norm_num

/-- Doubling is exact: `fl32(1336279/32768 · 2) = 1336279/16384`. -/
theorem fl32_c4b : fl32 ((1336279 / 32768 : ℚ) * 2) = 1336279 / 16384 := by
  have h : fl32 ((1336279 / 32768 : ℚ) * 2) = ((10690232 : ℤ) : ℚ) * 2 ^ ((6 : ℤ) - 23) :=
    fl32_eval (e := 6) (m := 10690232) (by norm_num) (by norm_num) (by norm_num)
      (rne_eq_lo (by norm_num) (by norm_num))
  rw [h]; norm_num

/-- `fl32(1336279/16384 · 60)`: the exact product is `10022092.5·2⁻¹¹`, a
tie, rounded to the even significand: result `2505523/512 = 4893.599609375`. -/
theorem fl32_c4c : fl32 ((1336279 / 16384 : ℚ) * 60) = 2505523 / 512 := by
  have h : fl32 ((1336279 / 16384 : ℚ) * 60) = ((10022092 : ℤ) : ℚ) * 2 ^ ((12 : ℤ) - 23) :=
    fl32_eval (e := 12) (m := 10022092) (by norm_num) (by norm_num) (by norm_num)
      (rne_eq_tie (by norm_num) (by norm_num))
  rw [h]; norm_num

/-- The full chain for `d = 4078`, duty 60%: `t_on = 4893.599609375`. -/
theorem t_on_4078_60 : t_on 4078 60 = 2505523 / 512 := by
  unfold t_on
  rw [show (((4078 : ℕ) : ℚ)) = (4078 : ℚ) by norm_num, fl32_c4a, fl32_c4b,
    show (((60 : ℤ) : ℚ)) = (60 : ℚ) by norm_num, fl32_c4c]

/-- `int(t_on) = 4893` for `d = 4078`, duty 60% (truncation, not rounding). -/
theorem duration0_4078_60 : duration0 4078 60 = 4893 := by
  unfold duration0
  rw [t_on_4078_60, cInt_of_nonneg (by norm_num), Int.floor_eq_iff]
  constructor <;> norm_num

/-- `int(t_off) = 2·4078 - 4893 = 3263` for `d = 4078`, duty 60%. -/
theorem duration1_4078_60 : duration1 4078 60 = 3263 := by
  unfold duration1 t_off
  rw [duration0_4078_60]
  rw [show (2 * ((4078 : ℕ) : ℚ)) = ((8156 : ℤ) : ℚ) by push_cast; norm_num]
  rw [fl32_intCast 8156 (by norm_num) (by norm_num)]
  rw [show ((8156 : ℤ) : ℚ) - ((4893 : ℤ) : ℚ) = ((3263 : ℤ) : ℚ) by push_cast; norm_num]
  rw [fl32_intCast 3263 (by norm_num) (by norm_num), cInt_intCast]

/-- `fl32(28433/100) = 9316925·2⁻¹⁵ = 9316925/32768` (≈ 284.329987). -/
theorem fl32_c5a : fl32 ((28433 : ℚ) / 100) = 9316925 / 32768 := by
  have h : fl32 ((28433 : ℚ) / 100) = ((9316925 : ℤ) : ℚ) * 2 ^ ((8 : ℤ) - 23) :=
    fl32_eval (e := 8) (m := 9316925) (by norm_num) (by norm_num) (by norm_num)
      (rne_eq_lo (by norm_num) (by norm_num))
  rw [h]; norm_num

/-- Doubling is exact: `fl32(9316925/32768 · 2) = 9316925/16384`. -/
theorem fl32_c5b : fl32 ((9316925 / 32768 : ℚ) * 2) = 9316925 / 16384 := by
  have h : fl32 ((9316925 / 32768 : ℚ) * 2) = ((9316925 : ℤ) : ℚ) * 2 ^ ((9 : ℤ) - 23) :=
    fl32_eval (e := 9) (m := 9316925) (by norm_num) (by norm_num) (by norm_num)
      (rne_eq_lo (by norm_num) (by norm_num))
  rw [h]; norm_num

/-- `fl32(9316925/16384 · 50) = 14557695/512 = 28432.998046875 < 28433`. -/
theorem fl32_c5c : fl32 ((9316925 / 16384 : ℚ) * 50) = 14557695 / 512 := by
  have h : fl32 ((9316925 / 16384 : ℚ) * 50) = ((14557695 : ℤ) : ℚ) * 2 ^ ((14 : ℤ) - 23) :=
    fl32_eval (e := 14) (m := 14557695) (by norm_num) (by norm_num) (by norm_num)
      (rne_eq_lo (by norm_num) (by norm_num))
  rw [h]; norm_num

/-- The full chain for `d = 28433`, duty 50%: `t_on = 28432.998046875`. -/
theorem t_on_28433_50 : t_on 28433 50 = 14557695 / 512 := by
  unfold t_on
  rw [show (((28433 : ℕ) : ℚ)) = (28433 : ℚ) by norm_num, fl32_c5a, fl32_c5b,
    show (((50 : ℤ) : ℚ)) = (50 : ℚ) by norm_num, fl32_c5c]

/-- `int(t_on) = 28432 ≠ 28433` for `d = 28433` at 50% duty. -/
theorem duration0_28433_50 : duration0 28433 50 = 28432 := by
  unfold duration0
  rw [t_on_28433_50, cInt_of_nonneg (by norm_num), Int.floor_eq_iff]
  constructor <;> norm_num

/-- `int(t_off) = 2·28433 - 28432 = 28434` for `d = 28433` at 50% duty. -/
theorem duration1_28433_50 : duration1 28433 50 = 28434 := by
  unfold duration1 t_off
  rw [duration0_28433_50]
  rw [show (2 * ((28433 : ℕ) : ℚ)) = ((56866 : ℤ) : ℚ) by push_cast; norm_num]
  rw [fl32_intCast 56866 (by norm_num) (by norm_num)]
  rw [show ((56866 : ℤ) : ℚ) - ((28432 : ℤ) : ℚ) = ((28434 : ℤ) : ℚ) by push_cast; norm_num]
  rw [fl32_intCast 28434 (by norm_num) (by norm_num), cInt_intCast]

/-- `fl32(32393/100) = 10614538·2⁻¹⁵ = 5307269/16384` (≈ 323.929993). -/
theorem fl32_c5d : fl32 ((32393 : ℚ) / 100) = 5307269 / 16384 := by
  have h : fl32 ((32393 : ℚ) / 100) = ((10614538 : ℤ) : ℚ) * 2 ^ ((8 : ℤ) - 23) :=
    fl32_eval (e := 8) (m := 10614538) (by norm_num) (by norm_num) (by norm_num)
      (rne_eq_lo (by norm_num) (by norm_num))
  rw [h]; norm_num

/-- Doubling is exact: `fl32(5307269/16384 · 2) = 5307269/8192`. -/
theorem fl32_c5e : fl32 ((5307269 / 16384 : ℚ) * 2) = 5307269 / 8192 := by
  have h : fl32 ((5307269 / 16384 : ℚ) * 2) = ((10614538 : ℤ) : ℚ) * 2 ^ ((9 : ℤ) - 23) :=
    fl32_eval (e := 9) (m := 10614538) (by norm_num) (by norm_num) (by norm_num)
      (rne_eq_lo (by norm_num) (by norm_num))
  rw [h]; norm_num

/-- `fl32(5307269/8192 · 50)`: the exact product `16585215.625·2⁻⁹` rounds
up to significand `16585216`, giving exactly `32393`. -/
theorem fl32_c5f : fl32 ((5307269 / 8192 : ℚ) * 50) = 32393 := by
  have h : fl32 ((5307269 / 8192 : ℚ) * 50) = ((16585216 : ℤ) : ℚ) * 2 ^ ((14 : ℤ) - 23) :=
    fl32_eval (e := 14) (m := 16585216) (by norm_num) (by norm_num) (by norm_num)
      (rne_eq_hi (by norm_num) (by norm_num))
  rw [h]; norm_num

/-- The full chain for `d = 32393`, duty 50%: `t_on = 32393` exactly. -/
theorem t_on_32393_50 : t_on 32393 50 = 32393 := by
  unfold t_on
  rw [show (((32393 : ℕ) : ℚ)) = (32393 : ℚ) by norm_num, fl32_c5d, fl32_c5e,
    show (((50 : ℤ) : ℚ)) = (50 : ℚ) by norm_num, fl32_c5f]

/-- `int(t_on) = 32393` for `d = 32393` at 50% duty. -/
theorem duration0_32393_50 : duration0 32393 50 = 32393 := by
  unfold duration0
  rw [t_on_32393_50, show (32393 : ℚ) = ((32393 : ℤ) : ℚ) by norm_num, cInt_intCast]

/-- `int(t_off) = 2·32393 - 32393 = 32393` for `d = 32393` at 50% duty. -/
theorem duration1_32393_50 : duration1 32393 50 = 32393 := by
  unfold duration1 t_off
  rw [duration0_32393_50]
  rw [show (2 * ((32393 : ℕ) : ℚ)) = ((64786 : ℤ) : ℚ) by push_cast; norm_num]
  rw [fl32_intCast 64786 (by norm_num) (by norm_num)]
  rw [show ((64786 : ℤ) : ℚ) - ((32393 : ℤ) : ℚ) = ((32393 : ℤ) : ℚ) by push_cast; norm_num]
  rw [fl32_intCast 32393 (by norm_num) (by norm_num), cInt_intCast]

/-- C4 counterexample: at the feasible entry index 85 (`d = 4078`) with
effective duty 60%, the code's truncating computation hands `on = 4893` and
`off = 3263` to the driver, not the claimed rounded values `4894`/`3262`. -/
theorem c4_counterexample :
    t_dur 85 = 4078 ∧ (40 < t_dur 85 ∧ t_dur 85 < 18000) ∧
    duration0 4078 60 = 4893 ∧ duration1 4078 60 = 3263 ∧
    (4893 : ℤ) ≠ 4894 ∧ (3263 : ℤ) ≠ 3262 :=
  ⟨by decide, by decide, duration0_4078_60, duration1_4078_60, by decide, by decide⟩

/-- C4 amended: the code computes `on = int(t_on)` by truncating the
single-precision value of `(d/100)*2*p` (it does not round), and
`off = 2·d - on`, so `on + off = 2·d` always; for `d = 4078`, `p = 60` this
gives period 8156 with `on = 4893` and `off = 3263`. -/
theorem c4_amended :
    (∀ (d : ℕ) (p : ℤ), 1 ≤ d → d ≤ 32767 → 1 ≤ p → p ≤ 90 →
      duration0 d p + duration1 d p = 2 * d) ∧
    (t_dur 85 = 4078 ∧ duration0 4078 60 = 4893 ∧ duration1 4078 60 = 3263 ∧
      (4893 : ℤ) + 3263 = 2 * 4078) := by
  refine ⟨fun d p hd1 hd2 hp1 hp2 => durations_sum hd1 hd2 hp1 hp2,
    by decide, duration0_4078_60, duration1_4078_60, by decide⟩

/-- C4 amended witness: at `d = 4078`, `p = 60` the period invariant
`on + off = 8156` holds. -/
theorem c4_amended_witness : duration0 4078 60 + duration1 4078 60 = 2 * 4078 :=
  c4_amended.1 4078 60 (by norm_num) (by norm_num) (by norm_num) (by norm_num)

/-- C5 counterexample: entry index 2 has `d = 28433` (infeasible, so the
effective duty is 50% on both paths and for every stored duty), yet the
computed tick counts are `on = 28432` and `off = 28434`, not `d = 28433`:
single-precision rounding of `(28433/100)*2*50` lands just below `28433`
and the `int` cast truncates. -/
theorem c5_counterexample :
    t_dur 2 = 28433 ∧ loop_duty (t_dur 2) 70 = 50 ∧
    (rotary_onButtonClick (t_dur 2) 70).2 = 50 ∧
    duration0 28433 50 = 28432 ∧ duration1 28433 50 = 28434 ∧
    (28432 : ℤ) ≠ 28433 ∧ (28434 : ℤ) ≠ 28433 := by
  have ht : t_dur 2 = 28433 := by decide
  refine ⟨ht, ?_, ?_, duration0_28433_50, duration1_28433_50, by decide, by decide⟩
  · rw [ht]; unfold loop_duty; norm_num
  · rw [ht, rotary_onButtonClick_infeasible 70 (by norm_num)]

/-- C5 amended: at 50% effective duty the tick counts always satisfy
`on + off = 2·d` with `on ∈ {d, d-1}` (single-precision rounding can land
just below the exact integer `d`, which the `int` cast truncates to `d-1`);
the claimed entry `d = 32393` (index 0) does give `on = off = 32393`, but
e.g. the entry `d = 28433` (index 2) gives `on = 28432`, `off = 28434`. -/
theorem c5_amended :
    (∀ d : ℕ, 1 ≤ d → d ≤ 32767 →
      duration0 d 50 + duration1 d 50 = 2 * d ∧
      (duration0 d 50 = d ∨ duration0 d 50 = (d : ℤ) - 1)) ∧
    (t_dur 0 = 32393 ∧ duration0 32393 50 = 32393 ∧ duration1 32393 50 = 32393) ∧
    (t_dur 2 = 28433 ∧ duration0 28433 50 = 28432 ∧ duration1 28433 50 = 28434) := by
  refine ⟨?_, ⟨by decide, duration0_32393_50, duration1_32393_50⟩,
    ⟨by decide, duration0_28433_50, duration1_28433_50⟩⟩
  intro d hd1 hd2
  refine ⟨durations_sum hd1 hd2 (by norm_num) (by norm_num), ?_⟩
  obtain ⟨hlo, hhi⟩ := t_on_bounds (d := d) (p := 50) hd1 (by norm_num)
  push_cast at hlo hhi
  have hd0 : (0 : ℚ) < (d : ℚ) := by exact_mod_cast hd1
  have hdq2 : ((d : ℚ)) ≤ 32767 := by exact_mod_cast hd2
  have ht0 : 0 < t_on d 50 := by linarith
  have hdur0 : duration0 d 50 = ⌊t_on d 50⌋ := cInt_of_nonneg (le_of_lt ht0)
  have h1 : (d : ℚ) - 1 < t_on d 50 := by linarith
  have h2 : t_on d 50 < (d : ℚ) + 1 := by linarith
  have hfl1 : ((d : ℤ) - 1 : ℤ) ≤ ⌊t_on d 50⌋ := by
    apply Int.le_floor.mpr
    push_cast
    linarith
  have hfl2 : ⌊t_on d 50⌋ < (d : ℤ) + 1 := by
    apply Int.floor_lt.mpr
    push_cast
    linarith
  omega

/-- C5 amended witness: at `d = 32393` (the spec's example entry) the sum
invariant holds and `on` is `d` or `d - 1`. -/
theorem c5_amended_witness :
    duration0 32393 50 + duration1 32393 50 = 2 * 32393 ∧
    (duration0 32393 50 = 32393 ∨ duration0 32393 50 = (32393 : ℤ) - 1) :=
  (c5_amended.1 32393 (by norm_num) (by norm_num))

/-! ### Frequency estimator theorems -/

/-- C1: for every snapshot with `refTotal > 0` the computed frequency value
is exactly `(sigTotal/refTotal) * reference` (in the idealized exact
arithmetic), and for fixed `refTotal` it is monotonically non-decreasing in
`sigTotal`. -/
theorem c1_frequency_formula (r r' : Reading) (h : 0 < n_ref r)
    (h2 : n_ref r' = n_ref r) (h3 : n_sig r ≤ n_sig r') :
    loopFrequency r = FloatVal.finite ((n_sig r : ℚ) / (n_ref r : ℚ) * reference) ∧
    frequencyQ r ≤ frequencyQ r' := by
  have hnref : (0 : ℚ) < (n_ref r : ℚ) := by exact_mod_cast h
  have hq : ((n_ref r : ℚ)) ≠ 0 := ne_of_gt hnref
  constructor
  · unfold loopFrequency fdiv fmulPos
    rw [if_neg hq]
  · unfold frequencyQ
    rw [h2]
    have hcast : ((n_sig r : ℚ)) ≤ (n_sig r' : ℚ) := by exact_mod_cast h3
    have hrefpos : (0 : ℚ) ≤ reference := by unfold reference; norm_num
    have hinv : (0 : ℚ) ≤ (n_ref r : ℚ)⁻¹ := inv_nonneg.mpr (le_of_lt hnref)
    calc (n_sig r : ℚ) / (n_ref r : ℚ) * reference
        = (n_sig r : ℚ) * ((n_ref r : ℚ)⁻¹ * reference) := by ring
      _ ≤ (n_sig r' : ℚ) * ((n_ref r : ℚ)⁻¹ * reference) :=
          mul_le_mul_of_nonneg_right hcast (mul_nonneg hinv hrefpos)
      _ = (n_sig r' : ℚ) / (n_ref r : ℚ) * reference := by ring

/-- C1 witness: the spec's calibration example `refTotal = 10001339`
(`noverflow0 = 500`, `count0 = 1339`), `sigTotal = 5`, compared with the
same window showing `sigTotal = 6`. -/
theorem c1_frequency_formula_witness :
    loopFrequency { count0 := 1339, noverflow0 := 500, count1 := 5, noverflow1 := 0 } =
      FloatVal.finite
        ((n_sig { count0 := 1339, noverflow0 := 500, count1 := 5, noverflow1 := 0 } : ℚ) /
          (n_ref { count0 := 1339, noverflow0 := 500, count1 := 5, noverflow1 := 0 } : ℚ) *
            reference) ∧
    frequencyQ { count0 := 1339, noverflow0 := 500, count1 := 5, noverflow1 := 0 } ≤
      frequencyQ { count0 := 1339, noverflow0 := 500, count1 := 6, noverflow1 := 0 } :=
  c1_frequency_formula _ _ (by decide) (by decide) (by decide)

/-- C2 counterexample: a snapshot with `refTotal = 0` and `sigTotal = 5`.
The claim says the division is not performed and nothing is published, but
the code performs the IEEE division (yielding `+Inf`), `if (frequency)`
treats it as true, and the cycle is published. -/
theorem c2_counterexample :
    n_ref { count0 := 0, noverflow0 := 0, count1 := 5, noverflow1 := 0 } = 0 ∧
    publishes { count0 := 0, noverflow0 := 0, count1 := 5, noverflow1 := 0 } = true ∧
    loopFrequency { count0 := 0, noverflow0 := 0, count1 := 5, noverflow1 := 0 } =
      FloatVal.posInf := by
  refine ⟨rfl, ?_, ?_⟩ <;>
    simp [publishes, loopFrequency, fdiv, fmulPos, truthy, n_ref, n_sig, PCNT_H_LIM_VAL]

/-- C2 amended: the division is always performed; with `refTotal = 0` it
yields `+Inf` (or `NaN` when `sigTotal = 0` too), both of which
`if (frequency)` treats as true, so the cycle IS published; publication is
suppressed exactly when the computed frequency is zero, i.e. when
`sigTotal = 0` with `refTotal ≠ 0`.  The computation is total — no crash. -/
theorem c2_amended (r : Reading) :
    (publishes r = false ↔ n_sig r = 0 ∧ n_ref r ≠ 0) ∧
    (n_ref r = 0 → n_sig r ≠ 0 → loopFrequency r = FloatVal.posInf) ∧
    (n_ref r = 0 → n_sig r = 0 → loopFrequency r = FloatVal.nan) := by
  have hrefne : reference ≠ 0 := by unfold reference; norm_num
  refine ⟨?_, ?_, ?_⟩
  · by_cases hb : n_ref r = 0 <;> by_cases ha : n_sig r = 0 <;>
      simp [publishes, loopFrequency, fdiv, fmulPos, truthy, ha, hb, hrefne]
  · intro hb ha
    simp [loopFrequency, fdiv, fmulPos, hb, ha]
  · intro hb ha
    simp [loopFrequency, fdiv, fmulPos, hb, ha]

/-- C2 amended witness: a snapshot with `refTotal = 0` and one signal
overflow (`sigTotal = 20000`) yields `+Inf`. -/
theorem c2_amended_witness :
    loopFrequency { count0 := 0, noverflow0 := 0, count1 := 0, noverflow1 := 1 } =
      FloatVal.posInf :=
  (c2_amended _).2.1 rfl (by decide)

/-! ### Display precision theorems -/

/-- C6 counterexample: the reachable snapshot `noverflow0 = 10001`,
`count0 = 6108`, `sigTotal = 1` gives `refTotal = 200026108` and the exact
published frequency `1/20` Hz.  Both display paths show
`max(0, 8 - int(log10 f + 1)) = 8` fractional digits, while the claim's
formula `max(0, 8 - ⌊log10 f⌋ - 1)` demands 9: C truncation toward zero
differs from the floor on `f < 1/10`. -/
theorem c6_counterexample :
    publishes { count0 := 6108, noverflow0 := 10001, count1 := 1, noverflow1 := 0 } = true ∧
    frequencyQ { count0 := 6108, noverflow0 := 10001, count1 := 1, noverflow1 := 0 } = 1/20 ∧
    loop_precision (1/20) = 8 ∧ display_precision (1/20) = 8 ∧
    max 0 (8 - Int.log 10 ((1 : ℚ)/20) - 1) = 9 := by
  have hclog : Int.clog 10 ((1 : ℚ)/20) = -1 :=
    int_clog_eq (by norm_num) (by norm_num) (by norm_num) (by norm_num)
  have hlog : Int.log 10 ((1 : ℚ)/20) = -2 :=
    int_log_eq (by norm_num) (by norm_num) (by norm_num) (by norm_num)
  have hns : truncLog10Succ ((1 : ℚ)/20) = 0 := by
    unfold truncLog10Succ
    rw [if_neg (by norm_num), hclog]
    norm_num
  refine ⟨?_, ?_, ?_, ?_, ?_⟩
  · norm_num [publishes, loopFrequency, fdiv, fmulPos, truthy, n_ref, n_sig, PCNT_H_LIM_VAL,
      reference]
  · norm_num [frequencyQ, n_ref, n_sig, PCNT_H_LIM_VAL, reference]
  · unfold loop_precision
    rw [hns]
    norm_num
  · unfold display_precision
    rw [show scale_f ((1 : ℚ)/20) = 1/20 from by unfold scale_f; norm_num, hns]
    norm_num
  · rw [hlog]
    norm_num

/-- C6 amended: for every value `f ≥ 1/10` the serial-log digit count is
`max(0, 8 - ⌊log10 f⌋ - 1)` (there C truncation agrees with the floor),
while the LCD applies the same formula to the unit-scaled value
(`f/10³` for `f > 10³`, `f/10⁶` for `f > 10⁶`); for unscaled values
(`f ≤ 1000`) the two agree.  (For published `f < 1/10` the code's
truncation yields `8 - (⌈log10 f⌉ + 1)` instead — see the
counterexample.) -/
theorem c6_amended (f : ℚ) (hf : 1/10 ≤ f) :
    loop_precision f = max 0 (8 - Int.log 10 f - 1) ∧
    display_precision f = max 0 (8 - Int.log 10 (scale_f f) - 1) ∧
    (f ≤ 1000 → display_precision f = max 0 (8 - Int.log 10 f - 1)) := by
  have hl : ∀ g : ℚ, 1/10 ≤ g → truncLog10Succ g = Int.log 10 g + 1 := by
    intro g hg
    unfold truncLog10Succ
    rw [if_pos hg]
  have hscale : 1/10 ≤ scale_f f := by
    unfold scale_f
    split_ifs with h1 h2
    · rw [le_div_iff (by norm_num : (0 : ℚ) < 1000000)]; linarith
    · rw [le_div_iff (by norm_num : (0 : ℚ) < 1000)]; linarith
    · exact hf
  refine ⟨?_, ?_, ?_⟩
  · unfold loop_precision
    rw [hl f hf, show (8 : ℤ) - (Int.log 10 f + 1) = 8 - Int.log 10 f - 1 from by ring]
  · unfold display_precision
    rw [hl _ hscale,
      show (8 : ℤ) - (Int.log 10 (scale_f f) + 1) = 8 - Int.log 10 (scale_f f) - 1 from by ring]
  · intro h1000
    have hsf : scale_f f = f := by
      unfold scale_f
      rw [if_neg (by linarith), if_neg (by linarith)]
    unfold display_precision
    rw [hsf, hl f hf, show (8 : ℤ) - (Int.log 10 f + 1) = 8 - Int.log 10 f - 1 from by ring]

/-- C6 amended witness: the spec's example `f = 123.456` is shown with
`max(0, 8 - ⌊log10 123.456⌋ - 1) = 5` fractional digits on both paths. -/
theorem c6_amended_witness :
    display_precision (123456/1000) = 5 ∧ loop_precision (123456/1000) = 5 := by
  have h := c6_amended (123456/1000) (by norm_num)
  have hlog : Int.log 10 ((123456 : ℚ)/1000) = 2 :=
    int_log_eq (by norm_num) (by norm_num) (by norm_num) (by norm_num)
  constructor
  · rw [h.2.2 (by norm_num), hlog]
    norm_num
  · rw [h.1, hlog]
    norm_num

end ESP32PRC
